import Mathlib

/-!
Shallow embedding of the doctor availability validation and persistence
pipeline of the doutor-agenda repository: the form validation schema
(upsert-doctor-form.tsx), the upsert server action (actions/upsert-doctor/index.ts),
the delete server action (deleteDoctorAction), and the doctors table rows
(db schema).
-/

namespace DoutorAgenda

/-! ## Data model -/

/-- A clinic, as seen through the session (session.user.clinic has an id field). -/
structure Clinic where
  id : String
deriving Repr, DecidableEq

/-- The session user: session.user with an optional associated clinic
(session.user.clinic may be absent). A missing session entirely is modelled
as none at the call sites. -/
structure SessionUser where
  uid : String
  clinic : Option Clinic
deriving Repr, DecidableEq

/-- A row of the doctors table (db schema, doctorsTable). Timestamps are not
modelled; they are set by the storage layer and no claim mentions them. -/
structure DoctorRow where
  id : String
  name : String
  avatarImageUrl : Option String
  specialty : String
  availableFromWeekDay : Nat
  availableToWeekDay : Nat
  availableFromTime : String
  availableToTime : String
  appointmentPriceInCents : Int
  clinicId : String
deriving Repr, DecidableEq

/-- The parsed input of upsertDoctorAction (parsedInput): the fields the form
submits. It carries no clinicId; id is optional (absent on creation). -/
structure DoctorInput where
  id : Option String
  name : String
  specialty : String
  availableFromWeekDay : Nat
  availableToWeekDay : Nat
  availableFromTime : String
  availableToTime : String
  appointmentPriceInCents : Int
deriving Repr, DecidableEq

/-! ## String primitives

JS strings are sequences of code units; for the ASCII data of this pipeline
they are modelled as Lean strings and the JS operations (relational <,
String.prototype.trim, String.prototype.split, parseInt) as structural
functions over the underlying character list. -/

/-- Lexicographic order on character lists: the JS < comparison on strings. -/
def charListLt : List Char → List Char → Bool
  | [], [] => false
  | [], _ :: _ => true
  | _ :: _, [] => false
  | a :: as, b :: bs => if a < b then true else if b < a then false else charListLt as bs

/-- The JS relational comparison s < t on strings (code-unit lexicographic). -/
def strLt (s t : String) : Bool := charListLt s.data t.data

/-- String.prototype.trim: strip leading and trailing whitespace. -/
def trimChars (l : List Char) : List Char :=
  ((l.dropWhile Char.isWhitespace).reverse.dropWhile Char.isWhitespace).reverse

/-- String.prototype.split(":"): the list of colon-separated parts. -/
def splitColon : List Char → List (List Char)
  | [] => [[]]
  | c :: cs =>
    if c = ':' then [] :: splitColon cs
    else
      match splitColon cs with
      | [] => [[c]]
      | p :: ps => (c :: p) :: ps

/-! ## Form validation (formSchema in upsert-doctor-form.tsx) -/

/-- The raw form record validated by formSchema. appointmentPrice is the major
currency unit decimal collected by the form (a JS number), modelled as a
rational. -/
structure FormInput where
  name : String
  specialty : String
  appointmentPrice : Rat
  availableFromWeekDay : String
  availableToWeekDay : String
  availableFromTime : String
  availableToTime : String
deriving Repr, DecidableEq

/-- Identifies the form field an error is attached to (the zod path). -/
inductive FieldId where
  | name
  | specialty
  | appointmentPrice
  | availableFromTime
  | availableToTime
deriving Repr, DecidableEq

/-- The per-field checks of the zod object in formSchema, all evaluated and
collected together: name and specialty are trimmed then required nonempty,
appointmentPrice must be at least 1, both time fields are required nonempty.
The weekday fields are plain strings with no check. -/
def baseErrors (x : FormInput) : List FieldId :=
  (if (trimChars x.name.data).length ≥ 1 then [] else [FieldId.name])
  ++ (if (trimChars x.specialty.data).length ≥ 1 then [] else [FieldId.specialty])
  ++ (if x.appointmentPrice ≥ 1 then [] else [FieldId.appointmentPrice])
  ++ (if x.availableFromTime.data.length ≥ 1 then [] else [FieldId.availableFromTime])
  ++ (if x.availableToTime.data.length ≥ 1 then [] else [FieldId.availableToTime])

/-- formSchema: the zod object checks run first; the cross-field refine
(availableFromTime < availableToTime, JS string comparison, which is
lexicographic) runs only when the object checks all pass, and its failure is
attached to the availableToTime path. -/
def formSchemaErrors (x : FormInput) : List FieldId :=
  let b := baseErrors x
  if b.isEmpty then
    if strLt x.availableFromTime x.availableToTime then [] else [FieldId.availableToTime]
  else b

/-! ## Time normalization (upsertDoctorAction lines 31-41)

The action computes dayjs().set(hour/minute/second from
parseInt(t.split(":")[i])).utc() and stores .format("HH:mm:ss"). A dayjs
instant is modelled by the local calendar day count nowDays and the local
second-of-day; .utc() subtracts the local UTC offset (offMin minutes);
format("HH:mm:ss") renders the second-of-day of the resulting instant. -/

/-- JS parseInt on a radix-10 string with no sign or leading space: the
value of the longest digit prefix, NaN (none) when there is no digit. -/
def jsParseInt (l : List Char) : Option Nat :=
  let ds := l.takeWhile Char.isDigit
  if ds.isEmpty then none
  else some (ds.foldl (fun n c => n * 10 + (c.toNat - 48)) 0)

/-- The three parseInt(t.split(":")[i]) reads of the action; none when any of
them is NaN (a missing part of split is undefined, and parseInt of undefined
is NaN). -/
def parseHMS (t : String) : Option (Nat × Nat × Nat) :=
  let ps := splitColon t.data
  match jsParseInt (ps.getD 0 []), jsParseInt (ps.getD 1 []), jsParseInt (ps.getD 2 []) with
  | some h, some m, some s => some (h, m, s)
  | _, _, _ => none

/-- Seconds of the day denoted by an hour, minute, second triple. -/
def hmsToSecs (h m s : Nat) : Nat := h * 3600 + m * 60 + s

/-- The decimal digit character of n < 10. -/
def digitChar (n : Nat) : Char := Char.ofNat (48 + n)

/-- Two-digit zero padding of format("HH"), format("mm"), format("ss"). -/
def pad2Chars (n : Nat) : List Char := [digitChar (n / 10), digitChar (n % 10)]

/-- format("HH:mm:ss") on a second-of-day value. -/
def renderHMS (t : Nat) : String :=
  String.mk (pad2Chars (t / 3600) ++ [':'] ++ pad2Chars (t % 3600 / 60) ++ [':'] ++ pad2Chars (t % 60))

/-- The whole normalization of one time string in upsertDoctorAction:
dayjs() at local day nowDays, set the parsed hour/minute/second, convert to
UTC (subtract offMin minutes), format("HH:mm:ss"). When a part parses to
NaN the dayjs value is invalid and format yields the string Invalid Date. -/
def formatNormalized (nowDays offMin : Int) (t : String) : String :=
  match parseHMS t with
  | some (h, m, s) =>
      renderHMS ((nowDays * 86400 + (hmsToSecs h m s : Int) - offMin * 60) % 86400).toNat
  | none => "Invalid Date"

/-- Modelled from the spec: the 24-hour HH:MM:SS format the spec requires of
the time fields (the source performs no such format check; this predicate
states the format of the spec for comparison). -/
def isHHMMSS (t : String) : Bool :=
  match splitColon t.data with
  | [h, m, s] =>
      h.length == 2 && m.length == 2 && s.length == 2
      && h.all Char.isDigit && m.all Char.isDigit && s.all Char.isDigit
      && (jsParseInt h).getD 24 < 24 && (jsParseInt m).getD 60 < 60
      && (jsParseInt s).getD 60 < 60
  | _ => false

/-! ## The server actions

upsertDoctorAction and deleteDoctorAction, with their collaborators made
explicit: the session (an Option SessionUser), the doctors table (a list of
rows), the generated uuid for an insert (freshId), the process-local clock
(local day nowDays, local UTC offset offMin minutes), and whether the
storage write succeeds (dbOk). revalidatePath("/doctors") is modelled by the
revalidated flag of the outcome. -/

/-- The error classes the two actions can throw. -/
inductive ActionError where
  | unauthenticated
  | noClinicAssociation
  | notFound
  | forbidden
  | validationFailed
  | persistence
deriving Repr, DecidableEq

/-- The observable outcome of one action invocation: the thrown error or unit,
the doctors table afterwards, and whether revalidatePath("/doctors") ran. -/
structure ActionOutcome where
  result : Except ActionError Unit
  db : List DoctorRow
  revalidated : Bool

/-- db.query.doctorsTable.findFirst(where id = i). -/
def findDoctor (db : List DoctorRow) (i : String) : Option DoctorRow :=
  db.find? (fun r => r.id == i)

/-- The set clause of onConflictDoUpdate: every field of parsedInput plus the
two normalized time strings overwrite the matched row; clinicId is not in the
clause and stays. An absent id in the input is dropped by the driver. -/
def applyUpd (inp : DoctorInput) (fromT toT : String) (r : DoctorRow) : DoctorRow :=
  { r with
    id := inp.id.getD r.id
    name := inp.name
    specialty := inp.specialty
    availableFromWeekDay := inp.availableFromWeekDay
    availableToWeekDay := inp.availableToWeekDay
    availableFromTime := fromT
    availableToTime := toT
    appointmentPriceInCents := inp.appointmentPriceInCents }

/-- The SQL insert-on-conflict-do-update keyed by the id column: when a row
with the new id exists it is updated in place, otherwise the new row is
appended. -/
def insertOrUpdate (db : List DoctorRow) (newRow : DoctorRow)
    (upd : DoctorRow → DoctorRow) : List DoctorRow :=
  if db.any (fun r => r.id == newRow.id) then
    db.map (fun r => if r.id == newRow.id then upd r else r)
  else db ++ [newRow]

/-- upsertDoctorAction (actions/upsert-doctor/index.ts, lines 18-62): checks
the session, checks the clinic association, normalizes both time strings,
then issues the insert .. onConflictDoUpdate and revalidates /doctors. There
is no fetch of the target row and no ownership comparison before the write. -/
def upsertDoctorHandler (sessionUser : Option SessionUser) (db : List DoctorRow)
    (inp : DoctorInput) (freshId : String) (nowDays offMin : Int) (dbOk : Bool) :
    ActionOutcome :=
  match sessionUser with
  | none => ⟨.error .unauthenticated, db, false⟩
  | some u =>
    match u.clinic with
    | none => ⟨.error .noClinicAssociation, db, false⟩
    | some c =>
      let fromT := formatNormalized nowDays offMin inp.availableFromTime
      let toT := formatNormalized nowDays offMin inp.availableToTime
      if dbOk then
        let newRow : DoctorRow :=
          { id := inp.id.getD freshId
            name := inp.name
            avatarImageUrl := none
            specialty := inp.specialty
            availableFromWeekDay := inp.availableFromWeekDay
            availableToWeekDay := inp.availableToWeekDay
            availableFromTime := fromT
            availableToTime := toT
            appointmentPriceInCents := inp.appointmentPriceInCents
            clinicId := c.id }
        ⟨.ok (), insertOrUpdate db newRow (applyUpd inp fromT toT), true⟩
      else ⟨.error .persistence, db, false⟩

/-- deleteDoctorAction (doctors page module, lines 122-152): checks the
session, fetches the target row (not found error when absent), compares the
row clinicId against session.user.clinic?.id (permission error on mismatch,
including when the user has no clinic), then deletes and revalidates
/doctors. There is no separate no-clinic-association gate. -/
def deleteDoctorHandler (sessionUser : Option SessionUser) (db : List DoctorRow)
    (did : String) (dbOk : Bool) : ActionOutcome :=
  match sessionUser with
  | none => ⟨.error .unauthenticated, db, false⟩
  | some u =>
    match findDoctor db did with
    | none => ⟨.error .notFound, db, false⟩
    | some d =>
      if u.clinic.map Clinic.id ≠ some d.clinicId then
        ⟨.error .forbidden, db, false⟩
      else if dbOk then ⟨.ok (), db.filter (fun r => r.id ≠ did), true⟩
      else ⟨.error .persistence, db, false⟩

/-- Modelled from the spec: actionClient.inputSchema validates the raw input
before the handler runs (the upsertDoctorSchema module is not among the
sources); on a validation failure the handler, hence any write and any
revalidation, never runs. validOk abstracts the verdict of that schema. -/
def upsertDoctor (validOk : Bool) (sessionUser : Option SessionUser)
    (db : List DoctorRow) (inp : DoctorInput) (freshId : String)
    (nowDays offMin : Int) (dbOk : Bool) : ActionOutcome :=
  if validOk then upsertDoctorHandler sessionUser db inp freshId nowDays offMin dbOk
  else ⟨.error .validationFailed, db, false⟩

/-- Modelled from the spec: the same input-schema gate in front of
deleteDoctorAction (its zod object requires a uuid string id). -/
def deleteDoctor (validOk : Bool) (sessionUser : Option SessionUser)
    (db : List DoctorRow) (did : String) (dbOk : Bool) : ActionOutcome :=
  if validOk then deleteDoctorHandler sessionUser db did dbOk
  else ⟨.error .validationFailed, db, false⟩

/-! ## Concrete fixtures used by the closed theorems -/

/-- A doctor row owned by clinic c2. -/
def docRowC2 : DoctorRow :=
  ⟨"d1", "Dr. B", none, "cardiologia", 1, 5, "08:00:00", "18:00:00", 10000, "c2"⟩

/-- A session user associated with clinic c1. -/
def sessionC1 : SessionUser := ⟨"u1", some ⟨"c1"⟩⟩

/-- A session user with no associated clinic. -/
def userNoClinic : SessionUser := ⟨"u2", none⟩

/-- An update input that targets the row d1. -/
def inpOther : DoctorInput :=
  ⟨some "d1", "Overwritten", "dermatologia", 2, 4, "09:00:00", "17:00:00", 5000⟩

/-- A creation input (no id). -/
def inpNew : DoctorInput :=
  ⟨none, "Dr. Ana", "cardiologia", 1, 5, "08:00:00", "18:00:00", 15000⟩

/-- A form record whose time fields are nonempty but not HH:MM:SS. -/
def badFormInput : FormInput :=
  ⟨"Dr. A", "cardiologia", 150, "1", "5", "1", "2"⟩

/-- A fully well-formed form record. -/
def okFormInput : FormInput :=
  ⟨"Dr. Ana", "cardiologia", 150, "1", "5", "08:00:00", "18:00:00"⟩

/-! ## Helper lemmas -/

theorem formatNormalized_of_parse (nowDays offMin : Int) (t : String) (h m s : Nat)
    (hp : parseHMS t = some (h, m, s)) :
    formatNormalized nowDays offMin t
      = renderHMS (((hmsToSecs h m s : Int) - offMin * 60) % 86400).toNat := by
  simp only [formatNormalized, hp]
  have he : ((nowDays * 86400 + (hmsToSecs h m s : Int) - offMin * 60) % 86400).toNat
      = (((hmsToSecs h m s : Int) - offMin * 60) % 86400).toNat := by
    omega
  rw [he]

theorem any_id_eq_false (db : List DoctorRow) (i : String) (h : ∀ x ∈ db, x.id ≠ i) :
    db.any (fun r => r.id == i) = false := by
  simp only [List.any_eq_false]
  intro x hx
  simpa using h x hx

theorem findDoctor_append_fresh (db : List DoctorRow) (r : DoctorRow)
    (h : ∀ x ∈ db, x.id ≠ r.id) : findDoctor (db ++ [r]) r.id = some r := by
  unfold findDoctor
  rw [List.find?_append]
  have h0 : db.find? (fun x => x.id == r.id) = none := by
    rw [List.find?_eq_none]
    intro x hx
    simpa using h x hx
  simp [h0]

theorem list_map_congr_mem {α β : Type} (f g : α → β) :
    ∀ (l : List α), (∀ a ∈ l, f a = g a) → l.map f = l.map g := by
  intro l
  induction l with
  | nil => intro _; rfl
  | cons a l ih =>
      intro h
      simp only [List.map_cons]
      rw [h a (by simp), ih (fun x hx => h x (by simp [hx]))]

theorem list_map_id_mem {α : Type} (f : α → α) (l : List α)
    (h : ∀ a ∈ l, f a = a) : l.map f = l := by
  rw [list_map_congr_mem f id l (by simpa using h)]
  simp

theorem countP_map_pres {α : Type} (p : α → Bool) (f : α → α)
    (hf : ∀ a, p (f a) = p a) (l : List α) : (l.map f).countP p = l.countP p := by
  induction l with
  | nil => rfl
  | cons a l ih => simp [List.countP_cons, ih, hf]

theorem pres_of_upd_id (nr : DoctorRow) (upd : DoctorRow → DoctorRow)
    (hui : ∀ r, (upd r).id = nr.id) :
    ∀ r : DoctorRow, ((if r.id == nr.id then upd r else r).id == nr.id) = (r.id == nr.id) := by
  intro r
  by_cases h : (r.id == nr.id) = true
  · simp [h, hui]
  · simp [h]

theorem insertOrUpdate_idem (db : List DoctorRow) (nr : DoctorRow) (upd : DoctorRow → DoctorRow)
    (hui : ∀ r, (upd r).id = nr.id)
    (hunr : upd nr = nr)
    (hidem : ∀ r, upd (upd r) = upd r) :
    insertOrUpdate (insertOrUpdate db nr upd) nr upd = insertOrUpdate db nr upd := by
  unfold insertOrUpdate
  by_cases ha : (db.any fun r => r.id == nr.id) = true
  · rw [if_pos ha]
    have ha2 : ((db.map fun r => if r.id == nr.id then upd r else r).any
        fun r => r.id == nr.id) = true := by
      rcases List.any_eq_true.mp ha with ⟨a, haMem, hpa⟩
      refine List.any_eq_true.mpr
        ⟨(if a.id == nr.id then upd a else a), List.mem_map.mpr ⟨a, haMem, rfl⟩, ?_⟩
      rw [pres_of_upd_id nr upd hui a]
      exact hpa
    rw [if_pos ha2, List.map_map]
    apply list_map_congr_mem
    intro a _
    simp only [Function.comp]
    by_cases h : (a.id == nr.id) = true
    · rw [if_pos h]
      have h2 : ((upd a).id == nr.id) = true := by simp [hui]
      rw [if_pos h2, hidem]
    · rw [if_neg h, if_neg h]
  · rw [if_neg ha]
    have haf : (db.any fun r => r.id == nr.id) = false := by
      revert ha
      cases (db.any fun r => r.id == nr.id) <;> simp
    have ha2 : ((db ++ [nr]).any fun r => r.id == nr.id) = true :=
      List.any_eq_true.mpr ⟨nr, by simp, by simp⟩
    rw [if_pos ha2, List.map_append]
    have h1 : (db.map fun r => if r.id == nr.id then upd r else r) = db := by
      apply list_map_id_mem
      intro a haMem
      have hne := List.any_eq_false.mp haf a haMem
      rw [if_neg hne]
    have h2 : ([nr].map fun r => if r.id == nr.id then upd r else r) = [nr] := by
      simp [hunr]
    rw [h1, h2]

theorem insertOrUpdate_count (db : List DoctorRow) (nr : DoctorRow) (upd : DoctorRow → DoctorRow)
    (hui : ∀ r, (upd r).id = nr.id)
    (hcount : db.countP (fun r => r.id == nr.id) ≤ 1) :
    (insertOrUpdate db nr upd).countP (fun r => r.id == nr.id) = 1 := by
  unfold insertOrUpdate
  by_cases ha : (db.any fun r => r.id == nr.id) = true
  · rw [if_pos ha]
    rw [countP_map_pres _ _ (pres_of_upd_id nr upd hui) db]
    rcases List.any_eq_true.mp ha with ⟨a, haMem, hpa⟩
    have h1 : 0 < db.countP (fun r => r.id == nr.id) :=
      List.countP_pos_iff.mpr ⟨a, haMem, hpa⟩
    omega
  · rw [if_neg ha]
    rw [List.countP_append]
    have haf : (db.any fun r => r.id == nr.id) = false := by
      revert ha
      cases (db.any fun r => r.id == nr.id) <;> simp
    have h0 : db.countP (fun r => r.id == nr.id) = 0 := by
      rw [List.countP_eq_zero]
      intro a haMem
      exact List.any_eq_false.mp haf a haMem
    simp [h0]

/-! ## Claim theorems -/

/-- Claim C1: the claim asserts that every update through the upsert action
fetches the target Doctor and denies with NotFound/Forbidden before any write
when the caller clinic differs from the row clinicId. Evaluating
upsertDoctorAction at a caller of clinic c1 and a target row of clinic c2
shows the write succeeds, the fields of the foreign row are overwritten, and
revalidation runs: the action performs no ownership fetch at all, so the
claim fails on the code for the update path (deleteDoctorAction does perform
the check). -/
theorem upsert_missing_ownership_check :
    (upsertDoctorHandler (some sessionC1) [docRowC2] inpOther "fresh" 0 0 true).result
      = Except.ok ()
  ∧ (upsertDoctorHandler (some sessionC1) [docRowC2] inpOther "fresh" 0 0 true).revalidated
      = true
  ∧ findDoctor (upsertDoctorHandler (some sessionC1) [docRowC2] inpOther "fresh" 0 0 true).db "d1"
      = some ⟨"d1", "Overwritten", none, "dermatologia", 2, 4, "09:00:00", "17:00:00", 5000, "c2"⟩
  ∧ sessionC1.clinic ≠ some ⟨docRowC2.clinicId⟩ :=
  ⟨rfl, rfl, by decide, by decide⟩

/-- Claim C2: under the precondition that every per-field rule of formSchema
passes, the validation result is empty exactly when availableFromTime is
lexicographically strictly below availableToTime, and a rejection is the
single error attached to the availableToTime field. -/
theorem crossfield_time_order (x : FormInput) (h : baseErrors x = []) :
    formSchemaErrors x
      = if strLt x.availableFromTime x.availableToTime then []
        else [FieldId.availableToTime] := by
  simp [formSchemaErrors, h]

theorem crossfield_time_order_witness :
    formSchemaErrors okFormInput
      = if strLt okFormInput.availableFromTime okFormInput.availableToTime then []
        else [FieldId.availableToTime] :=
  crossfield_time_order okFormInput (by decide)

/-- Claim C3: inserting a Doctor whose two time strings parse as h:m:s and
re-reading the stored row yields each time shifted by minus the process UTC
offset modulo 24 hours, rendered as HH:MM:SS; the result does not depend on
the local calendar day (the day-boundary crossover is discarded) and the
weekday fields are stored exactly as given, unadjusted. -/
theorem roundtrip_utc_shift
    (u : SessionUser) (c : Clinic) (db : List DoctorRow) (inp : DoctorInput)
    (freshId : String) (nowDays offMin : Int)
    (hF mF sF hT mT sT : Nat)
    (hc : u.clinic = some c) (hid : inp.id = none)
    (hfresh : ∀ r ∈ db, r.id ≠ freshId)
    (hpf : parseHMS inp.availableFromTime = some (hF, mF, sF))
    (hpt : parseHMS inp.availableToTime = some (hT, mT, sT)) :
    ∃ r : DoctorRow,
      findDoctor (upsertDoctorHandler (some u) db inp freshId nowDays offMin true).db freshId
        = some r
      ∧ r.availableFromTime = renderHMS (((hmsToSecs hF mF sF : Int) - offMin * 60) % 86400).toNat
      ∧ r.availableToTime = renderHMS (((hmsToSecs hT mT sT : Int) - offMin * 60) % 86400).toNat
      ∧ r.availableFromWeekDay = inp.availableFromWeekDay
      ∧ r.availableToWeekDay = inp.availableToWeekDay
      ∧ r.clinicId = c.id := by
  obtain ⟨uid, uclin⟩ := u
  simp only [SessionUser.clinic] at hc
  subst hc
  simp only [upsertDoctorHandler, hid, Option.getD_none, if_true, insertOrUpdate,
    any_id_eq_false db freshId hfresh, Bool.false_eq_true, if_false]
  refine ⟨_, findDoctor_append_fresh db _ hfresh, ?_, ?_, rfl, rfl, rfl⟩
  · exact formatNormalized_of_parse nowDays offMin _ hF mF sF hpf
  · exact formatNormalized_of_parse nowDays offMin _ hT mT sT hpt

theorem roundtrip_utc_shift_witness :
    ∃ r : DoctorRow,
      findDoctor (upsertDoctorHandler (some sessionC1) [] inpNew "f1" 3 180 true).db "f1"
        = some r
      ∧ r.availableFromTime = renderHMS (((hmsToSecs 8 0 0 : Int) - 180 * 60) % 86400).toNat
      ∧ r.availableToTime = renderHMS (((hmsToSecs 18 0 0 : Int) - 180 * 60) % 86400).toNat
      ∧ r.availableFromWeekDay = inpNew.availableFromWeekDay
      ∧ r.availableToWeekDay = inpNew.availableToWeekDay
      ∧ r.clinicId = "c1" :=
  roundtrip_utc_shift sessionC1 ⟨"c1"⟩ [] inpNew "f1" 3 180 8 0 0 18 0 0
    rfl rfl (by simp) (by decide) (by decide)

/-- Claim C4: the persistence step is an insert-or-update keyed by the Doctor
id: with no id supplied and a fresh generated id, the new row is appended
with clinicId the resolved clinic of the caller; with an id matching an
existing row, exactly the rows with that id are rewritten in place through
the update clause carrying every input field and the two normalized time
strings. -/
theorem upsert_insert_or_update
    (u : SessionUser) (c : Clinic) (db : List DoctorRow) (inp : DoctorInput)
    (freshId : String) (nowDays offMin : Int) (hc : u.clinic = some c) :
    (inp.id = none → (∀ r ∈ db, r.id ≠ freshId) →
       (upsertDoctorHandler (some u) db inp freshId nowDays offMin true).db
         = db ++ [⟨freshId, inp.name, none, inp.specialty, inp.availableFromWeekDay,
                   inp.availableToWeekDay,
                   formatNormalized nowDays offMin inp.availableFromTime,
                   formatNormalized nowDays offMin inp.availableToTime,
                   inp.appointmentPriceInCents, c.id⟩])
  ∧ (∀ i, inp.id = some i → (∃ r ∈ db, r.id = i) →
       (upsertDoctorHandler (some u) db inp freshId nowDays offMin true).db
         = db.map (fun r => if r.id == i
             then applyUpd inp (formatNormalized nowDays offMin inp.availableFromTime)
                    (formatNormalized nowDays offMin inp.availableToTime) r
             else r)) := by
  constructor
  · intro hid hfresh
    obtain ⟨uid, uclin⟩ := u
    simp only [SessionUser.clinic] at hc
    subst hc
    simp only [upsertDoctorHandler, hid, Option.getD_none, if_true, insertOrUpdate,
      any_id_eq_false db freshId hfresh, Bool.false_eq_true, if_false]
  · intro i hid hex
    obtain ⟨uid, uclin⟩ := u
    simp only [SessionUser.clinic] at hc
    subst hc
    have ha : db.any (fun r => r.id == i) = true := by
      rcases hex with ⟨r, hr, hri⟩
      exact List.any_eq_true.mpr ⟨r, hr, by simp [hri]⟩
    simp only [upsertDoctorHandler, hid, Option.getD_some, if_true, insertOrUpdate, ha]

theorem upsert_insert_or_update_witness :
    (upsertDoctorHandler (some sessionC1) [] inpNew "f1" 0 0 true).db
      = [] ++ [⟨"f1", inpNew.name, none, inpNew.specialty, inpNew.availableFromWeekDay,
                inpNew.availableToWeekDay,
                formatNormalized 0 0 inpNew.availableFromTime,
                formatNormalized 0 0 inpNew.availableToTime,
                inpNew.appointmentPriceInCents, "c1"⟩] :=
  (upsert_insert_or_update sessionC1 ⟨"c1"⟩ [] inpNew "f1" 0 0 rfl).1 rfl (by simp)

/-- Claim C5: no upsert invocation reassigns an existing Doctor row to another
clinic: whatever the session, the input, the generated id, the clock and the
write outcome, every row of the prior table is still present with the same id
and the same clinicId afterwards (the update clause does not carry clinicId). -/
theorem clinic_never_reassigned
    (su : Option SessionUser) (db : List DoctorRow) (inp : DoctorInput)
    (freshId : String) (nowDays offMin : Int) (dbOk : Bool)
    (r : DoctorRow) (hr : r ∈ db) :
    ∃ q, q ∈ (upsertDoctorHandler su db inp freshId nowDays offMin dbOk).db
      ∧ q.id = r.id ∧ q.clinicId = r.clinicId := by
  match su with
  | none => exact ⟨r, hr, rfl, rfl⟩
  | some u =>
    match hu : u.clinic with
    | none =>
        refine ⟨r, ?_, rfl, rfl⟩
        simp only [upsertDoctorHandler, hu]
        exact hr
    | some c =>
        obtain ⟨uid, uclin⟩ := u
        simp only [SessionUser.clinic] at hu
        subst hu
        simp only [upsertDoctorHandler]
        cases dbOk with
        | false => exact ⟨r, hr, rfl, rfl⟩
        | true =>
            simp only [if_true]
            unfold insertOrUpdate
            by_cases ha : db.any (fun x => x.id == inp.id.getD freshId) = true
            · rw [if_pos ha]
              by_cases hm : (r.id == inp.id.getD freshId) = true
              · refine ⟨applyUpd inp _ _ r, List.mem_map.mpr ⟨r, hr, by rw [if_pos hm]⟩, ?_, rfl⟩
                unfold applyUpd
                cases hi : inp.id with
                | none => rfl
                | some i =>
                    simp only [Option.getD_some]
                    have hrid : r.id = i := by
                      have hm2 := hm
                      rw [hi] at hm2
                      simpa using hm2
                    simp [hrid]
              · exact ⟨r, List.mem_map.mpr ⟨r, hr, by rw [if_neg hm]⟩, rfl, rfl⟩
            · rw [if_neg ha]
              exact ⟨r, List.mem_append_left _ hr, rfl, rfl⟩

theorem clinic_never_reassigned_witness :
    ∃ q, q ∈ (upsertDoctorHandler (some sessionC1) [docRowC2] inpOther "fresh" 0 0 true).db
      ∧ q.id = docRowC2.id ∧ q.clinicId = docRowC2.clinicId :=
  clinic_never_reassigned (some sessionC1) [docRowC2] inpOther "fresh" 0 0 true docRowC2
    (by simp)

/-- Claim C6: for both actions, with the input-schema gate made explicit, the
/doctors revalidation signal is emitted exactly when the action returns
success (the storage write committed), and on any failure, validation,
authorization or storage, the table is left unchanged. -/
theorem signal_iff_commit
    (validOk : Bool) (su : Option SessionUser) (db : List DoctorRow) (inp : DoctorInput)
    (freshId : String) (nowDays offMin : Int) (dbOk : Bool) (did : String) :
    ((upsertDoctor validOk su db inp freshId nowDays offMin dbOk).revalidated = true
       ↔ (upsertDoctor validOk su db inp freshId nowDays offMin dbOk).result = Except.ok ())
  ∧ ((upsertDoctor validOk su db inp freshId nowDays offMin dbOk).result ≠ Except.ok ()
       → (upsertDoctor validOk su db inp freshId nowDays offMin dbOk).db = db)
  ∧ ((deleteDoctor validOk su db did dbOk).revalidated = true
       ↔ (deleteDoctor validOk su db did dbOk).result = Except.ok ())
  ∧ ((deleteDoctor validOk su db did dbOk).result ≠ Except.ok ()
       → (deleteDoctor validOk su db did dbOk).db = db) := by
  unfold upsertDoctor deleteDoctor upsertDoctorHandler deleteDoctorHandler
  refine ⟨?_, ?_, ?_, ?_⟩ <;>
  · (repeat' split) <;> simp_all

theorem signal_iff_commit_witness :
    ((upsertDoctor true (some sessionC1) [docRowC2] inpOther "fresh" 0 0 true).revalidated = true
       ↔ (upsertDoctor true (some sessionC1) [docRowC2] inpOther "fresh" 0 0 true).result
           = Except.ok ())
  ∧ ((upsertDoctor true (some sessionC1) [docRowC2] inpOther "fresh" 0 0 true).result
       ≠ Except.ok ()
       → (upsertDoctor true (some sessionC1) [docRowC2] inpOther "fresh" 0 0 true).db
           = [docRowC2])
  ∧ ((deleteDoctor true (some sessionC1) [docRowC2] "d1" true).revalidated = true
       ↔ (deleteDoctor true (some sessionC1) [docRowC2] "d1" true).result = Except.ok ())
  ∧ ((deleteDoctor true (some sessionC1) [docRowC2] "d1" true).result ≠ Except.ok ()
       → (deleteDoctor true (some sessionC1) [docRowC2] "d1" true).db = [docRowC2]) :=
  signal_iff_commit true (some sessionC1) [docRowC2] inpOther "fresh" 0 0 true "d1"

/-- Claim C7 counterexample: a session user with no associated clinic invoking
deleteDoctorAction on an existing row receives the permission (Forbidden)
error, not the NoClinicAssociation error the claim requires: the delete
action has no distinct no-clinic gate. -/
theorem delete_no_clinic_forbidden :
    (deleteDoctorHandler (some userNoClinic) [docRowC2] "d1" true).result
      = Except.error ActionError.forbidden
  ∧ userNoClinic.clinic = none
  ∧ ActionError.forbidden ≠ ActionError.noClinicAssociation :=
  ⟨rfl, rfl, by decide⟩

/-- Claim C7 amended: upsertDoctorAction checks Unauthenticated then
NoClinicAssociation, in that order, before any write; deleteDoctorAction
checks only Unauthenticated as a distinct gate, and a caller with no
associated clinic is denied by the ownership comparison with NotFound or
Forbidden, before any write and with no revalidation. -/
theorem auth_gate_order_amended :
    (∀ db inp freshId nowDays offMin dbOk,
       upsertDoctorHandler none db inp freshId nowDays offMin dbOk
         = ⟨Except.error ActionError.unauthenticated, db, false⟩)
  ∧ (∀ (u : SessionUser) db inp freshId nowDays offMin dbOk, u.clinic = none →
       upsertDoctorHandler (some u) db inp freshId nowDays offMin dbOk
         = ⟨Except.error ActionError.noClinicAssociation, db, false⟩)
  ∧ (∀ db did dbOk,
       deleteDoctorHandler none db did dbOk
         = ⟨Except.error ActionError.unauthenticated, db, false⟩)
  ∧ (∀ (u : SessionUser) db did dbOk, u.clinic = none →
       ((deleteDoctorHandler (some u) db did dbOk).result = Except.error ActionError.notFound
        ∨ (deleteDoctorHandler (some u) db did dbOk).result = Except.error ActionError.forbidden)
       ∧ (deleteDoctorHandler (some u) db did dbOk).db = db
       ∧ (deleteDoctorHandler (some u) db did dbOk).revalidated = false) := by
  refine ⟨fun _ _ _ _ _ _ => rfl, ?_, fun _ _ _ => rfl, ?_⟩
  · intro u db inp freshId nowDays offMin dbOk hu
    simp [upsertDoctorHandler, hu]
  · intro u db did dbOk hu
    unfold deleteDoctorHandler
    cases hf : findDoctor db did with
    | none => simp
    | some d => simp [hu]

theorem auth_gate_order_amended_witness :
    upsertDoctorHandler (some userNoClinic) [] inpOther "f" 0 0 true
      = ⟨Except.error ActionError.noClinicAssociation, [], false⟩ :=
  auth_gate_order_amended.2.1 userNoClinic [] inpOther "f" 0 0 true rfl

/-- Claim C8: calling the upsert twice with the same supplied id and the same
field values leaves the table of the first call unchanged, and after the
calls there is exactly one row carrying that id (given the table keyed by
unique ids to begin with). -/
theorem upsert_idempotent
    (u : SessionUser) (c : Clinic) (db : List DoctorRow) (inp : DoctorInput) (i : String)
    (freshId : String) (nowDays offMin : Int)
    (hc : u.clinic = some c) (hid : inp.id = some i)
    (hcount : db.countP (fun r => r.id == i) ≤ 1) :
    (upsertDoctorHandler (some u)
        (upsertDoctorHandler (some u) db inp freshId nowDays offMin true).db
        inp freshId nowDays offMin true).db
      = (upsertDoctorHandler (some u) db inp freshId nowDays offMin true).db
  ∧ ((upsertDoctorHandler (some u) db inp freshId nowDays offMin true).db.countP
        (fun r => r.id == i)) = 1 := by
  obtain ⟨uid, uclin⟩ := u
  simp only [SessionUser.clinic] at hc
  subst hc
  simp only [upsertDoctorHandler, hid, Option.getD_some, if_true]
  constructor
  · apply insertOrUpdate_idem
    · intro r
      simp [applyUpd, hid]
    · simp [applyUpd, hid]
    · intro r
      simp [applyUpd, hid]
  · exact insertOrUpdate_count db
      ⟨i, inp.name, none, inp.specialty, inp.availableFromWeekDay, inp.availableToWeekDay,
       formatNormalized nowDays offMin inp.availableFromTime,
       formatNormalized nowDays offMin inp.availableToTime,
       inp.appointmentPriceInCents, c.id⟩
      (applyUpd inp (formatNormalized nowDays offMin inp.availableFromTime)
        (formatNormalized nowDays offMin inp.availableToTime))
      (fun r => by simp [applyUpd, hid]) hcount

theorem upsert_idempotent_witness :
    (upsertDoctorHandler (some sessionC1)
        (upsertDoctorHandler (some sessionC1) [docRowC2] inpOther "fresh" 0 0 true).db
        inpOther "fresh" 0 0 true).db
      = (upsertDoctorHandler (some sessionC1) [docRowC2] inpOther "fresh" 0 0 true).db
  ∧ ((upsertDoctorHandler (some sessionC1) [docRowC2] inpOther "fresh" 0 0 true).db.countP
        (fun r => r.id == "d1")) = 1 :=
  upsert_idempotent sessionC1 ⟨"c1"⟩ [docRowC2] inpOther "d1" "fresh" 0 0 rfl rfl (by decide)

/-- Claim C9 counterexample: a record whose time fields are nonempty but not
in HH:MM:SS format passes formSchema validation in full, refuting the claim
that validation rejects non-HH:MM:SS time fields; such a string reaches the
persister parsing. -/
theorem malformed_time_passes_validation :
    formSchemaErrors badFormInput = []
  ∧ isHHMMSS badFormInput.availableFromTime = false :=
  ⟨by decide, by decide⟩

/-- Claim C9 amended: formSchema rejects availableFromTime and
availableToTime exactly when the field is the empty string; no HH:MM:SS
format check is performed, so any nonempty string can pass validation and
reach the persister parsing. -/
theorem time_fields_reject_empty_only (x : FormInput) :
    (FieldId.availableFromTime ∈ baseErrors x ↔ x.availableFromTime = "")
  ∧ (FieldId.availableToTime ∈ baseErrors x ↔ x.availableToTime = "") := by
  have key : ∀ t : String, (t = "") ↔ t.data.length = 0 := by
    intro t
    constructor
    · intro h
      subst h
      rfl
    · intro h
      have h0 : t.data = [] := List.length_eq_zero.mp h
      cases t
      cases h0
      rfl
  by_cases c1 : (trimChars x.name.data).length ≥ 1 <;>
  by_cases c2 : (trimChars x.specialty.data).length ≥ 1 <;>
  by_cases c3 : x.appointmentPrice ≥ 1 <;>
  by_cases c4 : x.availableFromTime.data.length ≥ 1 <;>
  by_cases c5 : x.availableToTime.data.length ≥ 1 <;>
  simp_all [baseErrors, key] <;> omega

theorem time_fields_reject_empty_only_witness :
    (FieldId.availableFromTime ∈ baseErrors badFormInput
       ↔ badFormInput.availableFromTime = "")
  ∧ (FieldId.availableToTime ∈ baseErrors badFormInput
       ↔ badFormInput.availableToTime = "") :=
  time_fields_reject_empty_only badFormInput

/-- Claim C10: the normalization applies one and the same shift to both time
fields, so the difference of the two stored second-of-day values modulo 24
hours equals that of the inputs; and at offset +120 minutes the strictly
ordered local pair 01:00:00 and 03:00:00 is stored as 23:00:00 and 01:00:00,
a stored pair with availableFromTime not below availableToTime. -/
theorem utc_shift_uniform :
    (∀ (nowDays offMin : Int) (t1 t2 : String) (h1 m1 s1 h2 m2 s2 : Nat),
       parseHMS t1 = some (h1, m1, s1) → parseHMS t2 = some (h2, m2, s2) →
       ∃ a1 a2 : Nat,
         formatNormalized nowDays offMin t1 = renderHMS a1
         ∧ formatNormalized nowDays offMin t2 = renderHMS a2
         ∧ ((a2 : Int) - (a1 : Int)) % 86400
             = ((hmsToSecs h2 m2 s2 : Int) - (hmsToSecs h1 m1 s1 : Int)) % 86400)
  ∧ (isHHMMSS "01:00:00" = true ∧ isHHMMSS "03:00:00" = true
     ∧ strLt "01:00:00" "03:00:00" = true
     ∧ formatNormalized 0 120 "01:00:00" = "23:00:00"
     ∧ formatNormalized 0 120 "03:00:00" = "01:00:00"
     ∧ strLt "23:00:00" "01:00:00" = false) := by
  constructor
  · intro nowDays offMin t1 t2 h1 m1 s1 h2 m2 s2 hp1 hp2
    refine ⟨(((hmsToSecs h1 m1 s1 : Int) - offMin * 60) % 86400).toNat,
            (((hmsToSecs h2 m2 s2 : Int) - offMin * 60) % 86400).toNat,
            formatNormalized_of_parse nowDays offMin t1 h1 m1 s1 hp1,
            formatNormalized_of_parse nowDays offMin t2 h2 m2 s2 hp2, ?_⟩
    omega
  · exact ⟨by decide, by decide, by decide, by decide, by decide, by decide⟩

theorem utc_shift_uniform_witness :
    ∃ a1 a2 : Nat,
      formatNormalized 5 45 "08:00:00" = renderHMS a1
      ∧ formatNormalized 5 45 "18:30:00" = renderHMS a2
      ∧ ((a2 : Int) - (a1 : Int)) % 86400
          = ((hmsToSecs 18 30 0 : Int) - (hmsToSecs 8 0 0 : Int)) % 86400 :=
  utc_shift_uniform.1 5 45 "08:00:00" "18:30:00" 8 0 0 18 30 0 (by decide) (by decide)

end DoutorAgenda
